import Mathlib

/-!
# Verification of the mgodo generic data-access layer

Shallow embedding of `src/mgodo.go` (package `mgodo`), a CRUD layer over an
mgo/MongoDB document store with soft deletes and a change-log audit trail.

The development has three parts:

* **Query building** (`findQ`, `findByIdQ`, `EraseAll` and the read
  operations routed through them): the Go code manipulates `bson.M` filter
  documents; we embed the fragment of BSON filters the code constructs
  (top-level equality entries plus a `$and` array of `$eq`/`$ne`
  one-field conditions) together with MongoDB matching semantics.

* **Mutation engine and audit logger** (`Create`, `Save`, `Delete`,
  `Erase`, `saveLog` and the `*WithLog` compositions): modelled as explicit
  state passing over a `DoState` (the in-memory model, the record
  collection, the log collection and the operation context).  Every store
  round-trip takes an explicit fault flag so that error-propagation claims
  quantify over store failures.

* **Reflective field access** (`reflect.Value.FieldByName` / `Set`): a
  record is an association list of typed field values; a missing field or
  an incompatibly-typed write is a Go panic, modelled as `ROutcome.panicked`.
-/

/-! ## BSON values, filter documents and matching semantics -/

/-- A BSON scalar value, as used by the filters `mgodo` builds:
object ids, strings, numbers (timestamps) and booleans. -/
inductive BVal where
  | oid (n : Nat)
  | str (s : String)
  | nat (n : Nat)
  | bool (b : Bool)
deriving DecidableEq, Repr

/-- A document: an association list from field names to values
(first binding wins, as for Go struct fields). -/
abbrev Doc := List (String × BVal)

/-- Look a field up in a document. -/
def docGet (d : Doc) (f : String) : Option BVal :=
  (d.find? (fun p => p.1 == f)).map (fun p => p.2)

/-- A one-field condition document, the only shapes `findQ` ever puts in a
`$and` array: `{field: value}` (equality) and `{field: {$ne: value}}`. -/
inductive Cond where
  | ceq (field : String) (v : BVal)
  | cne (field : String) (v : BVal)
deriving DecidableEq, Repr

/-- MongoDB matching of a one-field condition against a document.
`$ne` matches when the field is absent or holds a different value. -/
def condMatches (d : Doc) : Cond → Bool
  | .ceq f v => docGet d f == some v
  | .cne f v => !(docGet d f == some v)

/-- The fragment of `bson.M` the Go code manipulates: top-level
field-equality entries (e.g. `{"_id": id}`) plus an optional `"$and"` key
holding an array of conditions.  `findQ` reads and writes exactly the
`"$and"` key of this map. -/
structure QueryM where
  plain : List (String × BVal)
  andList : Option (List Cond)
deriving DecidableEq, Repr

/-- MongoDB semantics of a `QueryM` filter document: every top-level
equality entry must hold and every condition of the `$and` array must hold. -/
def queryMatches (q : QueryM) (d : Doc) : Bool :=
  q.plain.all (fun p => docGet d p.1 == some p.2) &&
  (match q.andList with
   | none => true
   | some cs => cs.all (fun c => condMatches d c))

/-- Matching for a possibly-nil `bson.M` (a nil selector matches every
document, which is mgo's semantics for `Find(nil)` / `RemoveAll(nil)`). -/
def optMatches (q : Option QueryM) (d : Doc) : Bool :=
  match q with
  | none => true
  | some qm => queryMatches qm d

/-- A document is soft-deleted when its flag is `true` under either
historical spelling of the field name. -/
def softDeleted (d : Doc) : Bool :=
  (docGet d "is_removed" == some (.bool true)) ||
  (docGet d "IsRemoved" == some (.bool true))

/-! ## The query state of a `Do` context and `findQ` -/

/-- The volatile query state of a `Do` context: the `Query`, `Sort`,
`Skip` and `Limit` fields.  `Sort` distinguishes nil from a non-nil slice;
`Skip`/`Limit` are Go `int`s. -/
structure QueryState where
  query : Option QueryM
  sort : Option (List String)
  skip : Int
  limit : Int
deriving DecidableEq, Repr

/-- The `mgo.Query` that `findQ` returns: the filter actually sent to the
store, the sort keys, and the skip/limit/select options applied to the
cursor (`none` when the corresponding `Query.Skip`/`Limit`/`Select` call
was not made). -/
structure MgoQuery where
  filter : QueryM
  sortKeys : List String
  skip : Option Int
  limit : Option Int
  sel : Option (List String)
deriving DecidableEq, Repr

/-- Go `rmQ` from `findQ`: the pair of not-soft-deleted conditions
`[{is_removed: {$ne: true}}, {IsRemoved: {$ne: true}}]`. -/
def rmQ : List Cond :=
  [.cne "is_removed" (.bool true), .cne "IsRemoved" (.bool true)]

/-- The filter-composition step of `findQ`: if `m.Query` is nil the filter
becomes `{"$and": rmQ}`; if it has no `"$and"` key that key is set to
`rmQ`; otherwise `rmQ` is appended to the existing `"$and"` array. -/
def composeQuery (q : Option QueryM) : QueryM :=
  match q with
  | none => { plain := [], andList := some rmQ }
  | some qm =>
    match qm.andList with
    | none => { qm with andList := some rmQ }
    | some v => { qm with andList := some (v ++ rmQ) }

/-- Go `findQ`: composes the filter, **writes it back into `m.Query`**, and
builds the cursor with the sort default `-UpdatedAt, -CreatedAt` when
`m.Sort` is nil, skipping/limiting only when the values are nonzero.
Returns the updated context state together with the built query. -/
def findQ (st : QueryState) : QueryState × MgoQuery :=
  let q := composeQuery st.query
  ({ st with query := some q },
   { filter := q
     sortKeys := match st.sort with
       | some s => s
       | none => ["-UpdatedAt", "-CreatedAt"]
     skip := if st.skip ≠ 0 then some st.skip else none
     limit := if st.limit ≠ 0 then some st.limit else none
     sel := none })

/-- Go `Q` exposes `findQ` verbatim. -/
def qQ (st : QueryState) : QueryState × MgoQuery := findQ st

/-- The query built by `Count` (it then calls `query.Count()`). -/
def countQ (st : QueryState) : QueryState × MgoQuery := findQ st

/-- The query built by `FindAll`. -/
def findAllQ (st : QueryState) : QueryState × MgoQuery := findQ st

/-- The query built by `GetByQ`. -/
def getByQQ (st : QueryState) : QueryState × MgoQuery := findQ st

/-- The query built by `Distinct`. -/
def distinctQ (st : QueryState) : QueryState × MgoQuery := findQ st

/-- The query built by `FindWithSelect`: `findQ` plus a column selection. -/
def findWithSelectQ (st : QueryState) (cols : List String) :
    QueryState × MgoQuery :=
  let r := findQ st
  (r.1, { r.2 with sel := some cols })

/-- Go `findByIdQ`: overwrites `m.Query` with `{"_id": id}` (the id read from
the model) and then goes through `findQ`, so the identity filter is still
composed with the soft-delete exclusion. -/
def findByIdQ (st : QueryState) (id : BVal) : QueryState × MgoQuery :=
  findQ { st with query := some { plain := [("_id", id)], andList := none } }

/-- The query built by `Get`. -/
def getQ (st : QueryState) (id : BVal) : QueryState × MgoQuery :=
  findByIdQ st id

/-- The query built by `GetWithSelect`. -/
def getWithSelectQ (st : QueryState) (id : BVal) (cols : List String) :
    QueryState × MgoQuery :=
  let r := findByIdQ st id
  (r.1, { r.2 with sel := some cols })

/-- Go `EraseAll` calls `RemoveAll(m.Query)` on the record collection: the
documents removed are exactly those matching the context's **current**
`Query` field, with no soft-delete exclusion added by `EraseAll` itself
(a nil `Query` matches everything). -/
def eraseAllDo (st : QueryState) (coll : List Doc) : List Doc :=
  coll.filter (fun d => !(optMatches st.query d))

/-- mgo sort-key parsing: a `-` prefix means descending, a `+` prefix (or
none) means ascending.  Returns `(field, descending?)`. -/
def parseSortKey (s : String) : String × Bool :=
  match s.data with
  | '-' :: rest => (String.mk rest, true)
  | '+' :: rest => (String.mk rest, false)
  | _ => (s, false)

/-! ## The mutation engine and audit logger

State-passing embedding of the mutating operations of `src/mgodo.go`.
The record collection is a list of documents keyed by their `Id`; a store
round-trip can fail, so every operation takes one explicit fault flag per
store call (`true` = the store reported an error on that call). -/

/-- A persisted record with the well-known fields of the data model plus
an opaque caller-defined payload.  Timestamps are naturals (`time.Now()`
ticks), ids are naturals standing for `bson.ObjectId`. -/
structure Model where
  id : Nat
  createdAt : Nat
  createdBy : String
  updatedAt : Nat
  updatedBy : String
  removedAt : Nat
  removedBy : String
  isRemoved : Bool
  payload : String
deriving DecidableEq, Repr

/-- Modelled from the spec: the closed enumeration of change-log operation
kinds (`UPDATE`/`DELETE`/`ERASE`); the constants are referenced by
`saveLog`'s callers but declared outside `src/`. -/
inductive Operation where
  | UPDATE
  | DELETE
  | ERASE
deriving DecidableEq, Repr

/-- Modelled from the spec: the `ChangeLog` document shape (declared
outside `src/`, its fields are assigned one by one in `saveLog`):
own identity, who/when logged, free-text reason, operation kind, the
record's identity and type name, and a full snapshot of the record as
re-read from the store. -/
structure ChangeLog where
  id : Nat
  createdBy : String
  createdAt : Nat
  changeReason : String
  operation : Operation
  modelObjId : Nat
  modelName : String
  modelValue : Model
deriving DecidableEq, Repr

/-- Store-level errors: mgo's `ErrNotFound` and any other store failure. -/
inductive Err where
  | notFound
  | storeError
deriving DecidableEq, Repr

/-- The state a `Do` context threads through the mutation engine: the
in-memory model, the record collection, the change-log collection and the
operator/reason/model-name configuration.  (The volatile query state is
embedded separately as `QueryState`.) -/
structure DoState where
  model : Model
  coll : List Model
  logColl : List ChangeLog
  operator : String
  reason : String
  modelName : String
deriving DecidableEq, Repr

/-- Go `collection.Upsert({_id: id}, {$set: doc})`: replace the document with
that id, or insert the document when no id matches. -/
def upsertById (coll : List Model) (id : Nat) (doc : Model) : List Model :=
  if coll.any (fun d => d.id == id) then
    coll.map (fun d => if d.id == id then doc else d)
  else coll ++ [doc]

/-- Go `collection.FindId(id).One(&record)`: the first document with that id. -/
def findId (coll : List Model) (id : Nat) : Option Model :=
  coll.find? (fun d => d.id == id)

/-- Upsert into the change-log collection, keyed by the log entry's own id. -/
def upsertLog (logColl : List ChangeLog) (id : Nat) (cl : ChangeLog) :
    List ChangeLog :=
  if logColl.any (fun c => c.id == id) then
    logColl.map (fun c => if c.id == id then cl else c)
  else logColl ++ [cl]

/-- Go `Create`: stamp a fresh id (`newId`), `CreatedAt := now`,
`CreatedBy := Operator` on the in-memory model, then upsert it keyed by
that id.  The field stamps survive a failing upsert (the model is mutated
in place before the store call). -/
def Create (st : DoState) (newId now : Nat) (fault : Bool) :
    DoState × Option Err :=
  let m1 := { st.model with
    id := newId
    createdAt := now
    createdBy := st.operator }
  let st1 := { st with model := m1 }
  if fault then (st1, some .storeError)
  else ({ st1 with coll := upsertById st1.coll m1.id m1 }, none)

/-- Go `Save`: stamp `UpdatedAt := now`, `UpdatedBy := Operator`, then upsert
keyed by the model's current id. -/
def Save (st : DoState) (now : Nat) (fault : Bool) : DoState × Option Err :=
  let m1 := { st.model with updatedAt := now, updatedBy := st.operator }
  let st1 := { st with model := m1 }
  if fault then (st1, some .storeError)
  else ({ st1 with coll := upsertById st1.coll m1.id m1 }, none)

/-- Go `Delete` (soft): stamp `RemovedAt := now`, `RemovedBy := Operator`,
`IsRemoved := true`, then upsert keyed by the model's id. -/
def Delete (st : DoState) (now : Nat) (fault : Bool) : DoState × Option Err :=
  let m1 := { st.model with
    removedAt := now
    removedBy := st.operator
    isRemoved := true }
  let st1 := { st with model := m1 }
  if fault then (st1, some .storeError)
  else ({ st1 with coll := upsertById st1.coll m1.id m1 }, none)

/-- Go `Erase` (hard): `collection.RemoveId(id)`.  mgo's `RemoveId` in the
default safe mode reports `ErrNotFound` when no document with that id
exists; otherwise the matching documents are removed. -/
def Erase (st : DoState) (fault : Bool) : DoState × Option Err :=
  if fault then (st, some .storeError)
  else if st.coll.any (fun d => d.id == st.model.id) then
    ({ st with coll := st.coll.filter (fun d => !(d.id == st.model.id)) },
     none)
  else (st, some .notFound)

/-- Go `saveLog`: re-read the record's current persisted state by its id
(`fFind` faults that read; a missing record is `ErrNotFound`), build a
`ChangeLog` entry whose `ModelValue` is that snapshot, and upsert it into
the log collection keyed by its fresh id `logId` (`fUpsert` faults the
write).  No failure path touches any collection. -/
def saveLog (st : DoState) (op : Operation) (now logId : Nat)
    (fFind fUpsert : Bool) : DoState × Option Err :=
  if fFind then (st, some .storeError)
  else
    match findId st.coll st.model.id with
    | none => (st, some .notFound)
    | some record =>
      let cl : ChangeLog :=
        { id := logId
          createdBy := st.operator
          createdAt := now
          changeReason := st.reason
          operation := op
          modelObjId := st.model.id
          modelName := st.modelName
          modelValue := record }
      if fUpsert then (st, some .storeError)
      else ({ st with logColl := upsertLog st.logColl logId cl }, none)

/-- Go `SaveWithLog`: `Save` first; on success, `saveLog(UPDATE)`. -/
def SaveWithLog (st : DoState) (now logId : Nat) (fSave fFind fLog : Bool) :
    DoState × Option Err :=
  let r1 := Save st now fSave
  match r1.2 with
  | some e => (r1.1, some e)
  | none => saveLog r1.1 .UPDATE now logId fFind fLog

/-- Go `DeleteWithLog`: `saveLog(DELETE)` first; on success, `Delete`. -/
def DeleteWithLog (st : DoState) (now logId : Nat) (fFind fLog fDel : Bool) :
    DoState × Option Err :=
  let r1 := saveLog st .DELETE now logId fFind fLog
  match r1.2 with
  | some e => (r1.1, some e)
  | none => Delete r1.1 now fDel

/-- Go `EraseWithLog`: `saveLog(ERASE)` first; on success, `Erase`. -/
def EraseWithLog (st : DoState) (now logId : Nat) (fFind fLog fErase : Bool) :
    DoState × Option Err :=
  let r1 := saveLog st .ERASE now logId fFind fLog
  match r1.2 with
  | some e => (r1.1, some e)
  | none => Erase r1.1 fErase

/-- Go `Get`: retrieve by the model's id through `findByIdQ`.  On this
concrete document model the composed filter `{_id: id} ∧ rmQ` denotes
"same id and not soft-deleted" (the flag is persisted under one of the two
tolerated spellings); `One` yields `ErrNotFound` when nothing matches. -/
def GetOp (st : DoState) (fault : Bool) : DoState × Option Err :=
  if fault then (st, some .storeError)
  else
    match st.coll.find? (fun d => d.id == st.model.id && !d.isRemoved) with
    | some d => ({ st with model := d }, none)
    | none => (st, some .notFound)

/-- Go `Count`: `count, _ := query.Count(); return int64(count)` — the store
error is discarded; mgo returns a count of `0` together with the error, so
a faulted `Count` returns `0` with no error indication.  A successful
`Count` counts the documents matching the composed filter (here: the
not-soft-deleted documents). -/
def CountOp (st : DoState) (fault : Bool) : Int :=
  if fault then 0
  else ((st.coll.filter (fun d => !d.isRemoved)).length : Int)

/-! ## Reflective field access

`Create`/`Save`/`Delete`/`Erase` reach the well-known fields through
`reflect.ValueOf(m.model).Elem().FieldByName(...)`.  `FieldByName` on a
missing field returns the zero `Value`; calling `Set` on it, or `Set` with
a value of an incompatible type, or `Interface()` on it, panics — the
`SchemaViolation` failure class.  A record is an association list of typed
field values; the panic is a distinguished outcome, not an error value. -/

/-- The type of a well-known field's value: `bson.ObjectId`, `time.Time`,
`string`, `bool`. -/
inductive FVal where
  | oid (n : Nat)
  | time (t : Nat)
  | str (s : String)
  | bool (b : Bool)
deriving DecidableEq, Repr

/-- The Go type of a field value, as a tag. -/
def kindOf : FVal → Nat
  | .oid _ => 0
  | .time _ => 1
  | .str _ => 2
  | .bool _ => 3

/-- Two values have the same Go type. -/
def sameKind (a b : FVal) : Bool := kindOf a == kindOf b

/-- A record as seen by reflection: its declared fields with their values. -/
abbrev RRecord := List (String × FVal)

/-- Go `FieldByName` + `Interface()`: read a field; `none` when the type does
not declare it (reading through the zero `Value` panics). -/
def getFieldR : RRecord → String → Option FVal
  | [], _ => none
  | (g, v) :: rest, f => if g == f then some v else getFieldR rest f

/-- Go `FieldByName` + `Set`: write a field; `none` (a panic) when the type
does not declare the field or declares it with an incompatible type. -/
def setFieldR : RRecord → String → FVal → Option RRecord
  | [], _, _ => none
  | (g, old) :: rest, f, v =>
    if g == f then
      if sameKind old v then some ((g, v) :: rest) else none
    else
      match setFieldR rest f v with
      | none => none
      | some rest1 => some ((g, old) :: rest1)

/-- The record's type declares field `f` with the type of `v`, so that a
reflective `Set` succeeds. -/
def canSet (r : RRecord) (f : String) (v : FVal) : Bool :=
  match getFieldR r f with
  | none => false
  | some old => sameKind old v

/-- Outcome of the reflective phase of a mutating operation: a Go panic
(`SchemaViolation` class) or the stamped record that is then persisted. -/
inductive ROutcome where
  | panicked
  | ok (r : RRecord)
deriving DecidableEq, Repr

/-- The reflective phase of `Create`: set `Id` (panicking immediately on a
missing or incompatibly-typed field), then `CreatedAt`, then `CreatedBy`. -/
def CreateR (r : RRecord) (operator : String) (newId now : Nat) : ROutcome :=
  match setFieldR r "Id" (.oid newId) with
  | none => .panicked
  | some r1 =>
    match setFieldR r1 "CreatedAt" (.time now) with
    | none => .panicked
    | some r2 =>
      match setFieldR r2 "CreatedBy" (.str operator) with
      | none => .panicked
      | some r3 => .ok r3

/-- The reflective phase of `Save`: set `UpdatedAt`, then `UpdatedBy`;
the `Id` field is only read (at the `Upsert` call), so a missing `Id`
panics last and a mistyped `Id` does not. -/
def SaveR (r : RRecord) (operator : String) (now : Nat) : ROutcome :=
  match setFieldR r "UpdatedAt" (.time now) with
  | none => .panicked
  | some r1 =>
    match setFieldR r1 "UpdatedBy" (.str operator) with
    | none => .panicked
    | some r2 =>
      if (getFieldR r2 "Id").isSome then .ok r2 else .panicked

/-- The reflective phase of `Delete`: set `RemovedAt`, `RemovedBy`,
`IsRemoved`; the `Id` field is only read at the `Upsert` call. -/
def DeleteR (r : RRecord) (operator : String) (now : Nat) : ROutcome :=
  match setFieldR r "RemovedAt" (.time now) with
  | none => .panicked
  | some r1 =>
    match setFieldR r1 "RemovedBy" (.str operator) with
    | none => .panicked
    | some r2 =>
      match setFieldR r2 "IsRemoved" (.bool true) with
      | none => .panicked
      | some r3 =>
        if (getFieldR r3 "Id").isSome then .ok r3 else .panicked

/-- The reflective phase of `Erase`: only reads `Id` (its value is handed
to `RemoveId` whatever its type). -/
def EraseR (r : RRecord) : ROutcome :=
  if (getFieldR r "Id").isSome then .ok r else .panicked

/-! ## Helper lemmas: filter composition -/

/-- The two `$ne` conditions of `rmQ` hold of a document exactly when the
document is not soft-deleted (under either spelling). -/
theorem rmQ_all_eq (d : Doc) :
    rmQ.all (fun c => condMatches d c) = !softDeleted d := by
  simp [rmQ, condMatches, softDeleted, Bool.not_or]

/-- Semantics of `findQ`'s filter composition: the composed filter matches
a document exactly when the caller's filter matches it and it is not
soft-deleted. -/
theorem composeQuery_matches (q : Option QueryM) (d : Doc) :
    queryMatches (composeQuery q) d = (optMatches q d && !softDeleted d) := by
  cases q with
  | none => simp [composeQuery, queryMatches, optMatches, rmQ_all_eq]
  | some qm =>
    cases h : qm.andList with
    | none =>
      simp [composeQuery, h, queryMatches, optMatches, rmQ_all_eq]
    | some v =>
      simp [composeQuery, h, queryMatches, optMatches, rmQ_all_eq,
        List.all_append, Bool.and_assoc]

/-- The composed filter is never the filter it was composed from: the
`$and` array strictly grows. -/
theorem composeQuery_ne (q : Option QueryM) : some (composeQuery q) ≠ q := by
  cases q with
  | none => simp
  | some qm =>
    cases h : qm.andList with
    | none =>
      intro hc
      rw [Option.some_inj] at hc
      have := congrArg QueryM.andList hc
      simp [composeQuery, h] at this
    | some v =>
      intro hc
      rw [Option.some_inj] at hc
      have := congrArg QueryM.andList hc
      simp [composeQuery, h] at this
      simp [rmQ] at this

/-- Composing twice appends a second copy of `rmQ` to the `$and` array. -/
theorem composeQuery_twice (q : Option QueryM) :
    composeQuery (some (composeQuery q)) =
      { composeQuery q with
        andList := some (((composeQuery q).andList.getD []) ++ rmQ) } := by
  cases q with
  | none => simp [composeQuery]
  | some qm => cases h : qm.andList <;> simp [composeQuery, h]

/-! ## Claim C3 -/

/-- Claim **C3** (confirmed): every read routed through the filter builder —
`Q`, `Count`, `FindAll`, `Get`, `GetByQ`, `FindWithSelect`, `Distinct`,
`GetWithSelect` — sends a filter that AND-composes the caller's filter
(for the identity-scoped reads, the `{_id: id}` filter) with the
not-soft-deleted predicate, which excludes a document exactly when its
soft-delete flag is `true` under either spelling (`is_removed` or
`IsRemoved`); with no caller filter the effective filter is exactly
`{"$and": rmQ}`. -/
theorem C3_reads_exclude_soft_deleted (st : QueryState) (d : Doc)
    (id : BVal) (cols : List String) :
    queryMatches (qQ st).2.filter d
      = (optMatches st.query d && !softDeleted d) ∧
    queryMatches (countQ st).2.filter d
      = (optMatches st.query d && !softDeleted d) ∧
    queryMatches (findAllQ st).2.filter d
      = (optMatches st.query d && !softDeleted d) ∧
    queryMatches (getByQQ st).2.filter d
      = (optMatches st.query d && !softDeleted d) ∧
    queryMatches (distinctQ st).2.filter d
      = (optMatches st.query d && !softDeleted d) ∧
    queryMatches (findWithSelectQ st cols).2.filter d
      = (optMatches st.query d && !softDeleted d) ∧
    queryMatches (getQ st id).2.filter d
      = ((docGet d "_id" == some id) && !softDeleted d) ∧
    queryMatches (getWithSelectQ st id cols).2.filter d
      = ((docGet d "_id" == some id) && !softDeleted d) ∧
    (qQ { st with query := none }).2.filter
      = { plain := [], andList := some rmQ } := by
  have hid : ∀ qm : QueryM, queryMatches (findQ { st with query := some qm }).2.filter d
      = (queryMatches qm d && !softDeleted d) := by
    intro qm
    simp [findQ, composeQuery_matches, optMatches]
  refine ⟨?_, ?_, ?_, ?_, ?_, ?_, ?_, ?_, ?_⟩
  · simp [qQ, findQ, composeQuery_matches]
  · simp [countQ, findQ, composeQuery_matches]
  · simp [findAllQ, findQ, composeQuery_matches]
  · simp [getByQQ, findQ, composeQuery_matches]
  · simp [distinctQ, findQ, composeQuery_matches]
  · simp [findWithSelectQ, findQ, composeQuery_matches]
  · rw [show (getQ st id).2.filter
        = (findQ { st with query := some { plain := [("_id", id)], andList := none } }).2.filter
        from rfl]
    rw [hid]
    simp [queryMatches]
  · rw [show (getWithSelectQ st id cols).2.filter
        = (findQ { st with query := some { plain := [("_id", id)], andList := none } }).2.filter
        from rfl]
    rw [hid]
    simp [queryMatches]
  · simp [qQ, findQ, composeQuery]

/-! ## Claim C8 -/

/-- Claim **C8** (confirmed): with no caller-specified sort keys, the cursor is
sorted `-UpdatedAt, -CreatedAt` — descending `UpdatedAt`
(newest-updated-first) then descending `CreatedAt` (newest-created-first)
under mgo's sort-key parsing — and a `Skip`/`Limit` of zero applies no
skip and no limit to the query. -/
theorem C8_sort_and_paging_defaults (st : QueryState) :
    (findQ { st with sort := none }).2.sortKeys
      = ["-UpdatedAt", "-CreatedAt"] ∧
    (findQ { st with sort := none }).2.sortKeys.map parseSortKey
      = [("UpdatedAt", true), ("CreatedAt", true)] ∧
    (findQ { st with skip := 0 }).2.skip = none ∧
    (findQ { st with limit := 0 }).2.limit = none := by
  have h1 : (findQ { st with sort := none }).2.sortKeys
      = ["-UpdatedAt", "-CreatedAt"] := rfl
  refine ⟨h1, ?_, ?_, ?_⟩
  · rw [h1]; decide
  · simp [findQ]
  · simp [findQ]

/-! ## Claim C10 -/

/-- Claim **C10** (confirmed): `findQ` mutates the context in place — after any
filter-builder read the context's `Query` holds the composed filter (which
is never the filter the caller supplied); a second read appends a second
copy of `rmQ` to the `$and` array; and `EraseAll` run after a read removes
the documents matching the mutated filter, not the caller's. -/
theorem C10_findQ_mutates_context (st : QueryState) (coll : List Doc) :
    (findQ st).1.query = some (composeQuery st.query) ∧
    some (composeQuery st.query) ≠ st.query ∧
    (findQ (findQ st).1).1.query
      = some { composeQuery st.query with
               andList := some (((composeQuery st.query).andList.getD [])
                 ++ rmQ) } ∧
    eraseAllDo (findQ st).1 coll
      = coll.filter (fun d => !(queryMatches (composeQuery st.query) d)) := by
  refine ⟨by simp [findQ], composeQuery_ne st.query, ?_, ?_⟩
  · have h1 : (findQ st).1.query = some (composeQuery st.query) := by
      simp [findQ]
    simp [findQ, h1, composeQuery_twice]
  · simp [eraseAllDo, findQ, optMatches]

/-! ## Claim C6 -/

/-- A context as the caller builds it: no filter, no sort, no paging. -/
def stC6 : QueryState := { query := none, sort := none, skip := 0, limit := 0 }

/-- A soft-deleted document. -/
def dRemovedC6 : Doc := [("_id", .oid 1), ("is_removed", .bool true)]

/-- Claim **C6 counterexample**: the caller supplied no filter (nil — matching
every document), then ran one filter-builder read (`Count`) on the same
context.  `EraseAll` afterwards does not operate on the caller's filter:
the context's `Query` was mutated, and the soft-deleted document — which
the caller's filter matches — is *not* removed, while `EraseAll` on the
untouched context removes it. -/
theorem C6_counterexample :
    (countQ stC6).1.query ≠ stC6.query ∧
    eraseAllDo (countQ stC6).1 [dRemovedC6] = [dRemovedC6] ∧
    eraseAllDo stC6 [dRemovedC6] = [] := by
  refine ⟨by decide, by decide, by decide⟩

/-- Claim **C6 amended** (corrected): `EraseAll` adds no soft-delete exclusion
of its own: it removes exactly the documents matching the context's
*current* `Query` verbatim — in particular a soft-deleted document
matching that filter is removed.  But the current `Query` is the filter
the caller supplied only when no filter-builder read preceded `EraseAll`
on the same context (see C10). -/
theorem C6_eraseAll_verbatim (st : QueryState) (coll : List Doc) (d : Doc)
    (_hd : d ∈ coll) (hm : optMatches st.query d = true)
    (_hs : softDeleted d = true) :
    eraseAllDo st coll = coll.filter (fun x => !(optMatches st.query x)) ∧
    d ∉ eraseAllDo st coll := by
  refine ⟨rfl, ?_⟩
  simp [eraseAllDo, List.mem_filter, hm]

/-- Witness for C6: a soft-deleted document matching the caller's nil
filter is removed by `EraseAll` on the untouched context. -/
theorem C6_eraseAll_verbatim_witness :
    dRemovedC6 ∉ eraseAllDo stC6 [dRemovedC6] :=
  (C6_eraseAll_verbatim stC6 [dRemovedC6] dRemovedC6 (by decide) (by decide)
    (by decide)).2

/-! ## Helper lemmas: the store -/

/-- A predicate that only ever holds of documents with a given id finds
nothing in a collection with no such id. -/
theorem find_none_of_any_false (coll : List Model) (i : Nat)
    (q : Model → Bool) (hq : ∀ d, q d = true → d.id = i)
    (hany : coll.any (fun d => d.id == i) = false) :
    coll.find? q = none := by
  have hnone : ∀ d ∈ coll, d.id ≠ i := by
    intro d hd
    have := List.any_eq_false.mp hany d hd
    simpa using this
  clear hany
  induction coll with
  | nil => rfl
  | cons h t ih =>
    have hqh : q h = false := by
      cases hh : q h with
      | false => rfl
      | true => exact absurd (hq h hh) (hnone h (by simp))
    simp only [List.find?_cons, hqh, cond_false]
    exact ih (fun d hd => hnone d (by simp [hd]))

/-- Replacing every id-matching document by `doc` makes `doc` the first
match of any id-pinned predicate that holds of `doc`, provided some
document had the id. -/
theorem find_map_replace (coll : List Model) (doc : Model) (i : Nat)
    (q : Model → Bool) (hqdoc : q doc = true)
    (hq : ∀ d, q d = true → d.id = i)
    (hany : coll.any (fun d => d.id == i) = true) :
    (coll.map (fun d => if d.id == i then doc else d)).find? q = some doc := by
  induction coll with
  | nil => simp at hany
  | cons h t ih =>
    cases hh : h.id == i with
    | true =>
      rw [List.map_cons, if_pos hh, List.find?_cons]
      simp [hqdoc]
    | false =>
      have hqh : q h = false := by
        cases hqh2 : q h with
        | false => rfl
        | true =>
          have := hq h hqh2
          simp [this] at hh
      have ht : t.any (fun d => d.id == i) = true := by
        rcases List.any_eq_true.mp hany with ⟨x, hx, hxi⟩
        rcases List.mem_cons.mp hx with rfl | hxt
        · rw [hxi] at hh
          exact absurd hh (by simp)
        · exact List.any_eq_true.mpr ⟨x, hxt, hxi⟩
      simp only [List.map_cons, List.find?_cons, hh, Bool.false_eq_true,
        if_false, hqh, cond_false]
      exact ih ht

/-- Appending `doc` to a collection with no prior match makes `doc` the
first match. -/
theorem find_append_last (coll : List Model) (doc : Model)
    (q : Model → Bool) (hqdoc : q doc = true)
    (hnone : coll.find? q = none) :
    (coll ++ [doc]).find? q = some doc := by
  induction coll with
  | nil => simp [List.find?_cons, hqdoc]
  | cons h t ih =>
    have hqh : q h = false := by
      cases hqh2 : q h with
      | false => rfl
      | true => simp [List.find?_cons, hqh2] at hnone
    have ht : t.find? q = none := by
      simpa [List.find?_cons, hqh] using hnone
    simp only [List.cons_append, List.find?_cons, hqh, cond_false]
    exact ih ht

/-- After `Upsert({_id: id}, {$set: doc})`, `doc` is the first document an
id-pinned predicate holding of `doc` finds. -/
theorem upsert_find (coll : List Model) (doc : Model) (q : Model → Bool)
    (hqdoc : q doc = true) (hq : ∀ d, q d = true → d.id = doc.id) :
    (upsertById coll doc.id doc).find? q = some doc := by
  unfold upsertById
  cases hany : coll.any (fun d => d.id == doc.id) with
  | true =>
    simp only [hany, if_true]
    exact find_map_replace coll doc doc.id q hqdoc hq hany
  | false =>
    simp only [hany, Bool.false_eq_true, if_false]
    exact find_append_last coll doc q hqdoc
      (find_none_of_any_false coll doc.id q hq hany)

/-- After an upsert keyed by `doc.id`, `FindId(doc.id)` returns `doc`. -/
theorem findId_upsert (coll : List Model) (doc : Model) :
    findId (upsertById coll doc.id doc) doc.id = some doc := by
  unfold findId
  exact upsert_find coll doc (fun d => d.id == doc.id) (by simp)
    (fun d hd => by simpa using hd)

/-- Filtering out every document with id `i` leaves nothing for an
id-pinned predicate to find. -/
theorem find_filter_ne_none (coll : List Model) (i : Nat)
    (q : Model → Bool) (hq : ∀ d, q d = true → d.id = i) :
    (coll.filter (fun d => !(d.id == i))).find? q = none := by
  induction coll with
  | nil => rfl
  | cons h t ih =>
    simp only [List.filter_cons]
    cases hh : h.id == i with
    | true => simpa [hh] using ih
    | false =>
      have hqh : q h = false := by
        cases hqh2 : q h with
        | false => rfl
        | true =>
          have := hq h hqh2
          simp [this] at hh
      simp [hh, List.find?_cons, hqh, ih]

/-- A fresh-id upsert into the log collection appends exactly one entry. -/
theorem upsertLog_fresh (logColl : List ChangeLog) (logId : Nat)
    (cl : ChangeLog) (hfresh : ∀ c ∈ logColl, c.id ≠ logId) :
    upsertLog logColl logId cl = logColl ++ [cl] := by
  unfold upsertLog
  have hany : logColl.any (fun c => c.id == logId) = false := by
    simp only [List.any_eq_false]
    intro c hc
    simpa using hfresh c hc
  simp [hany]

/-- A successful `saveLog` run: the record is re-read from the store and
one log entry holding that snapshot is appended; nothing else changes. -/
theorem saveLog_ok (st : DoState) (op : Operation) (now logId : Nat)
    (r0 : Model) (hrec : findId st.coll st.model.id = some r0)
    (hfresh : ∀ c ∈ st.logColl, c.id ≠ logId) :
    saveLog st op now logId false false =
      ({ st with logColl := st.logColl ++
          [{ id := logId
             createdBy := st.operator
             createdAt := now
             changeReason := st.reason
             operation := op
             modelObjId := st.model.id
             modelName := st.modelName
             modelValue := r0 }] }, none) := by
  unfold saveLog
  simp only [hrec]
  rw [upsertLog_fresh st.logColl logId _ hfresh]
  simp

/-- A failing `saveLog` leaves the state untouched. -/
theorem saveLog_fail (st : DoState) (op : Operation) (now logId : Nat)
    (fF fL : Bool)
    (hfail : (saveLog st op now logId fF fL).2 ≠ none) :
    (saveLog st op now logId fF fL).1 = st := by
  unfold saveLog at hfail ⊢
  cases fF with
  | true => rfl
  | false =>
    simp only [Bool.false_eq_true, if_false] at hfail ⊢
    cases hrec : findId st.coll st.model.id with
    | none => simp [hrec]
    | some r =>
      simp only [hrec] at hfail ⊢
      cases fL with
      | true => rfl
      | false => simp at hfail

/-- A record with a matching id in the collection means `any` finds it. -/
theorem any_of_findId (coll : List Model) (i : Nat) (r : Model)
    (h : findId coll i = some r) :
    coll.any (fun d => d.id == i) = true := by
  unfold findId at h
  have hp := List.find?_some h
  have hm := List.mem_of_find?_eq_some h
  exact List.any_eq_true.mpr ⟨r, hm, hp⟩

/-- Go `Get` when the composed identity filter matches a document. -/
theorem getOp_found (st : DoState) (d0 : Model)
    (hfind : st.coll.find? (fun d => d.id == st.model.id && !d.isRemoved)
      = some d0) :
    GetOp st false = ({ st with model := d0 }, none) := by
  unfold GetOp
  rw [hfind]
  rfl

/-- Go `Get` when the composed identity filter matches nothing. -/
theorem getOp_notFound (st : DoState)
    (hfind : st.coll.find? (fun d => d.id == st.model.id && !d.isRemoved)
      = none) :
    GetOp st false = (st, some Err.notFound) := by
  unfold GetOp
  rw [hfind]
  rfl

/-- A fault-free `SaveWithLog`: the save happens first, then exactly one
log entry is appended, and its `ModelValue` is the record as stored by the
save — `UpdatedAt = now`, `UpdatedBy = Operator` included. -/
theorem saveWithLog_ok (st : DoState) (now logId : Nat)
    (hfresh : ∀ c ∈ st.logColl, c.id ≠ logId) :
    SaveWithLog st now logId false false false =
      ({ st with
          model := { st.model with updatedAt := now, updatedBy := st.operator }
          coll := upsertById st.coll st.model.id
            { st.model with updatedAt := now, updatedBy := st.operator }
          logColl := st.logColl ++
            [{ id := logId
               createdBy := st.operator
               createdAt := now
               changeReason := st.reason
               operation := Operation.UPDATE
               modelObjId := st.model.id
               modelName := st.modelName
               modelValue :=
                 { st.model with
                     updatedAt := now, updatedBy := st.operator } }] },
       none) := by
  have h1 : SaveWithLog st now logId false false false =
      saveLog { st with
          model := { st.model with updatedAt := now, updatedBy := st.operator }
          coll := upsertById st.coll st.model.id
            { st.model with updatedAt := now, updatedBy := st.operator } }
        Operation.UPDATE now logId false false := rfl
  have h2 := saveLog_ok
    { st with
        model := { st.model with updatedAt := now, updatedBy := st.operator }
        coll := upsertById st.coll st.model.id
          { st.model with updatedAt := now, updatedBy := st.operator } }
    Operation.UPDATE now logId
    { st.model with updatedAt := now, updatedBy := st.operator }
    (findId_upsert st.coll
      { st.model with updatedAt := now, updatedBy := st.operator })
    hfresh
  rw [h1, h2]

/-- A fault-free `DeleteWithLog`: the log entry is written **first** — its
`ModelValue` is the stored record `r0` as it was *before* the soft delete —
and only then is the soft delete persisted. -/
theorem deleteWithLog_logs_before (st : DoState) (now logId : Nat)
    (r0 : Model) (hrec : findId st.coll st.model.id = some r0)
    (hfresh : ∀ c ∈ st.logColl, c.id ≠ logId) :
    DeleteWithLog st now logId false false false =
      ({ st with
          model := { st.model with
              removedAt := now, removedBy := st.operator, isRemoved := true }
          coll := upsertById st.coll st.model.id
            { st.model with
                removedAt := now, removedBy := st.operator, isRemoved := true }
          logColl := st.logColl ++
            [{ id := logId
               createdBy := st.operator
               createdAt := now
               changeReason := st.reason
               operation := Operation.DELETE
               modelObjId := st.model.id
               modelName := st.modelName
               modelValue := r0 }] },
       none) := by
  unfold DeleteWithLog
  rw [saveLog_ok st Operation.DELETE now logId r0 hrec hfresh]
  rfl

/-- A fault-free `EraseWithLog` on an existing record: one log entry,
snapshotting the pre-removal state, then the hard delete. -/
theorem eraseWithLog_ok (st : DoState) (now logId : Nat)
    (r0 : Model) (hrec : findId st.coll st.model.id = some r0)
    (hfresh : ∀ c ∈ st.logColl, c.id ≠ logId) :
    EraseWithLog st now logId false false false =
      ({ st with
          coll := st.coll.filter (fun d => !(d.id == st.model.id))
          logColl := st.logColl ++
            [{ id := logId
               createdBy := st.operator
               createdAt := now
               changeReason := st.reason
               operation := Operation.ERASE
               modelObjId := st.model.id
               modelName := st.modelName
               modelValue := r0 }] },
       none) := by
  have hany := any_of_findId st.coll st.model.id r0 hrec
  unfold EraseWithLog
  rw [saveLog_ok st Operation.ERASE now logId r0 hrec hfresh]
  unfold Erase
  simp [hany]

/-! ## Concrete states for counterexamples and witnesses -/

/-- A persisted, not-soft-deleted record. -/
def m0 : Model :=
  { id := 1
    createdAt := 10
    createdBy := "alice"
    updatedAt := 0
    updatedBy := ""
    removedAt := 0
    removedBy := ""
    isRemoved := false
    payload := "fields" }

/-- A context whose collection holds exactly `m0`. -/
def stOne : DoState :=
  { model := m0
    coll := [m0]
    logColl := []
    operator := "bob"
    reason := "cleanup"
    modelName := "Thing" }

/-- A context over an empty collection. -/
def stEmpty : DoState :=
  { model := m0
    coll := []
    logColl := []
    operator := "bob"
    reason := "cleanup"
    modelName := "Thing" }

/-! ## Claim C1 -/

/-- Claim **C1 counterexample**: a fault-free `DeleteWithLog` on a stored,
not-yet-deleted record succeeds, and its single log entry's `ModelValue`
has `isRemoved = false` — the state *before* the soft delete — even though
the record as stored afterwards has `isRemoved = true`.  The claim's
"mutation first, then log, so the snapshot shows `IsRemoved = true`" is
false for `DeleteWithLog`. -/
theorem C1_counterexample :
    (DeleteWithLog stOne 5 9 false false false).2 = none ∧
    (DeleteWithLog stOne 5 9 false false false).1.logColl.map
      (fun cl => cl.modelValue.isRemoved) = [false] ∧
    findId (DeleteWithLog stOne 5 9 false false false).1.coll 1 =
      some { m0 with removedAt := 5, removedBy := "bob", isRemoved := true } :=
  ⟨rfl, rfl, rfl⟩

/-- Claim **C1 amended** (corrected): `SaveWithLog` mutates first and then logs,
so its single log entry's `ModelValue` is the record as stored *after* the
save (new `UpdatedAt`/`UpdatedBy` included).  `DeleteWithLog`, however,
logs **first** and then soft-deletes: its single log entry's `ModelValue`
is the stored record `r0` from *before* the mutation, while the collection
afterwards holds the soft-deleted record. -/
theorem C1_mutation_log_order_amended (st : DoState) (now logId : Nat)
    (r0 : Model) (hrec : findId st.coll st.model.id = some r0)
    (hfresh : ∀ c ∈ st.logColl, c.id ≠ logId) :
    (SaveWithLog st now logId false false false).2 = none ∧
    (SaveWithLog st now logId false false false).1.logColl =
      st.logColl ++
        [{ id := logId
           createdBy := st.operator
           createdAt := now
           changeReason := st.reason
           operation := Operation.UPDATE
           modelObjId := st.model.id
           modelName := st.modelName
           modelValue :=
             { st.model with updatedAt := now, updatedBy := st.operator } }] ∧
    (DeleteWithLog st now logId false false false).2 = none ∧
    (DeleteWithLog st now logId false false false).1.logColl =
      st.logColl ++
        [{ id := logId
           createdBy := st.operator
           createdAt := now
           changeReason := st.reason
           operation := Operation.DELETE
           modelObjId := st.model.id
           modelName := st.modelName
           modelValue := r0 }] ∧
    findId (DeleteWithLog st now logId false false false).1.coll st.model.id =
      some { st.model with
          removedAt := now, removedBy := st.operator, isRemoved := true } := by
  rw [saveWithLog_ok st now logId hfresh,
      deleteWithLog_logs_before st now logId r0 hrec hfresh]
  exact ⟨rfl, rfl, rfl, rfl,
    findId_upsert st.coll
      { st.model with
          removedAt := now, removedBy := st.operator, isRemoved := true }⟩

/-- Witness for C1 at a concrete state. -/
theorem C1_witness :
    (SaveWithLog stOne 5 9 false false false).2 = none ∧
    (SaveWithLog stOne 5 9 false false false).1.logColl =
      [{ id := 9
         createdBy := "bob"
         createdAt := 5
         changeReason := "cleanup"
         operation := Operation.UPDATE
         modelObjId := 1
         modelName := "Thing"
         modelValue := { m0 with updatedAt := 5, updatedBy := "bob" } }] ∧
    (DeleteWithLog stOne 5 9 false false false).2 = none ∧
    (DeleteWithLog stOne 5 9 false false false).1.logColl =
      [{ id := 9
         createdBy := "bob"
         createdAt := 5
         changeReason := "cleanup"
         operation := Operation.DELETE
         modelObjId := 1
         modelName := "Thing"
         modelValue := m0 }] ∧
    findId (DeleteWithLog stOne 5 9 false false false).1.coll 1 =
      some { m0 with removedAt := 5, removedBy := "bob", isRemoved := true } :=
  C1_mutation_log_order_amended stOne 5 9 m0 (by decide) (by decide)

/-! ## Claim C2 -/

/-- Claim **C2** (confirmed): `EraseWithLog` writes exactly one new log entry
*before* the hard delete; the entry's `ModelValue` is the record's
persisted state `r0` immediately before removal; afterwards the record is
gone (`FindId` finds nothing and `Get` answers `NotFound`); and whenever
the log step fails — on any fault pattern — the erase is not performed:
the state is returned untouched with the log step's error. -/
theorem C2_eraseWithLog_logs_then_erases (st : DoState) (now logId : Nat)
    (fF fL fE : Bool) (r0 : Model)
    (hrec : findId st.coll st.model.id = some r0)
    (hfresh : ∀ c ∈ st.logColl, c.id ≠ logId) :
    ((saveLog st Operation.ERASE now logId fF fL).2 ≠ none →
      (EraseWithLog st now logId fF fL fE).1 = st ∧
      (EraseWithLog st now logId fF fL fE).2 =
        (saveLog st Operation.ERASE now logId fF fL).2) ∧
    (EraseWithLog st now logId false false false).2 = none ∧
    (EraseWithLog st now logId false false false).1.logColl =
      st.logColl ++
        [{ id := logId
           createdBy := st.operator
           createdAt := now
           changeReason := st.reason
           operation := Operation.ERASE
           modelObjId := st.model.id
           modelName := st.modelName
           modelValue := r0 }] ∧
    findId (EraseWithLog st now logId false false false).1.coll
      st.model.id = none ∧
    (GetOp (EraseWithLog st now logId false false false).1 false).2 =
      some Err.notFound := by
  constructor
  · intro hfail
    cases h2 : (saveLog st Operation.ERASE now logId fF fL).2 with
    | none => exact absurd h2 hfail
    | some e =>
      have hstate := saveLog_fail st Operation.ERASE now logId fF fL
        (by rw [h2]; exact Option.some_ne_none e)
      have hew : EraseWithLog st now logId fF fL fE =
          ((saveLog st Operation.ERASE now logId fF fL).1, some e) := by
        unfold EraseWithLog
        rw [show (saveLog st Operation.ERASE now logId fF fL)
            = ((saveLog st Operation.ERASE now logId fF fL).1, some e) from by
          rw [← h2]]
      rw [hew, hstate]
      exact ⟨rfl, by simp [h2]⟩
  · rw [eraseWithLog_ok st now logId r0 hrec hfresh]
    refine ⟨rfl, rfl, ?_, ?_⟩
    · exact find_filter_ne_none st.coll st.model.id _
        (fun d hd => by simpa using hd)
    · have hnone : (st.coll.filter (fun d => !(d.id == st.model.id))).find?
          (fun d => d.id == st.model.id && !d.isRemoved) = none :=
        find_filter_ne_none st.coll st.model.id _
          (fun d hd => by
            rw [Bool.and_eq_true] at hd
            simpa using hd.1)
      exact congrArg Prod.snd (getOp_notFound _ hnone)

/-- Witness for C2 at a concrete state. -/
theorem C2_witness :
    (EraseWithLog stOne 5 9 false false false).2 = none ∧
    (EraseWithLog stOne 5 9 false false false).1.logColl =
      [{ id := 9
         createdBy := "bob"
         createdAt := 5
         changeReason := "cleanup"
         operation := Operation.ERASE
         modelObjId := 1
         modelName := "Thing"
         modelValue := m0 }] ∧
    findId (EraseWithLog stOne 5 9 false false false).1.coll 1 = none ∧
    (GetOp (EraseWithLog stOne 5 9 false false false).1 false).2 =
      some Err.notFound :=
  (C2_eraseWithLog_logs_then_erases stOne 5 9 false false false m0
    (by decide) (by decide)).2

/-! ## Claim C4 -/

/-- Claim **C4 counterexample**: `Erase` on an identity absent from the store is
*not* silently successful: mgo's `RemoveId` in the default safe mode
reports `ErrNotFound`, and `Erase` returns that error. -/
theorem C4_counterexample :
    (Erase stEmpty false).2 = some Err.notFound ∧
    (Erase stEmpty false).2 ≠ none ∧
    (Erase stEmpty false).1 = stEmpty := by
  refine ⟨rfl, by decide, rfl⟩

/-- Claim **C4 amended** (corrected): `Erase` on a missing identity returns the
store's `NotFound` error (it is not idempotent-success); on an existing
identity it removes the record and returns no error. -/
theorem C4_erase_missing_is_notFound (st : DoState) :
    (st.coll.any (fun d => d.id == st.model.id) = false →
      Erase st false = (st, some Err.notFound)) ∧
    (st.coll.any (fun d => d.id == st.model.id) = true →
      (Erase st false).2 = none ∧
      findId (Erase st false).1.coll st.model.id = none) := by
  constructor
  · intro h
    simp [Erase, h]
  · intro h
    have hE : Erase st false =
        ({ st with
            coll := st.coll.filter (fun d => !(d.id == st.model.id)) },
         none) := by
      simp [Erase, h]
    rw [hE]
    exact ⟨rfl, find_filter_ne_none st.coll st.model.id _
      (fun d hd => by simpa using hd)⟩

/-! ## Claim C5 -/

/-- Claim **C5 counterexample**: `Count` does *not* propagate a store error: on
a faulted store call it returns a count of zero with no error indication
(its Go signature has no error result and the error from `query.Count()`
is discarded), even though the same state counts `1` without the fault. -/
theorem C5_counterexample :
    CountOp stOne true = 0 ∧ CountOp stOne false = 1 :=
  ⟨rfl, rfl⟩

/-- Claim **C5 amended** (corrected): every store-contacting operation except
`Count` returns the store's error as-is — a fault on the first store call
of each operation surfaces as `storeError` — while `Count` discards the
store error and returns `0`. -/
theorem C5_errors_propagate_except_count (st : DoState)
    (newId now logId : Nat) (op : Operation) :
    (Create st newId now true).2 = some Err.storeError ∧
    (Save st now true).2 = some Err.storeError ∧
    (Delete st now true).2 = some Err.storeError ∧
    (Erase st true).2 = some Err.storeError ∧
    (GetOp st true).2 = some Err.storeError ∧
    (saveLog st op now logId true false).2 = some Err.storeError ∧
    (SaveWithLog st now logId true false false).2 = some Err.storeError ∧
    (DeleteWithLog st now logId true false false).2 = some Err.storeError ∧
    (EraseWithLog st now logId true false false).2 = some Err.storeError ∧
    CountOp st true = 0 :=
  ⟨rfl, rfl, rfl, rfl, rfl, rfl, rfl, rfl, rfl, rfl⟩

/-! ## Claim C7 -/

/-- Claim **C7** (confirmed): `Create` stamps a fresh identity, `CreatedAt =
now` and `CreatedBy = Operator` on the record and upserts it keyed by that
identity; `Get`-by-identity afterwards succeeds and returns a record with
the same identity, a non-zero `CreatedAt` (for a non-zero clock) and
`CreatedBy` equal to the operator used in `Create`. -/
theorem C7_create_then_get (st : DoState) (newId now : Nat)
    (hnow : 0 < now) (hnr : st.model.isRemoved = false) :
    (Create st newId now false).2 = none ∧
    (Create st newId now false).1.model.id = newId ∧
    (Create st newId now false).1.model.createdAt = now ∧
    (Create st newId now false).1.model.createdBy = st.operator ∧
    findId (Create st newId now false).1.coll newId =
      some { st.model with
          id := newId, createdAt := now, createdBy := st.operator } ∧
    (GetOp (Create st newId now false).1 false).2 = none ∧
    (GetOp (Create st newId now false).1 false).1.model.id = newId ∧
    (GetOp (Create st newId now false).1 false).1.model.createdAt ≠ 0 ∧
    (GetOp (Create st newId now false).1 false).1.model.createdBy
      = st.operator := by
  have hqdoc : ((fun d => d.id == newId && !d.isRemoved)
      ({ st.model with
          id := newId, createdAt := now, createdBy := st.operator } : Model))
      = true := by
    simp [hnr]
  have hq : ∀ d : Model, (d.id == newId && !d.isRemoved) = true →
      d.id = ({ st.model with
        id := newId, createdAt := now, createdBy := st.operator } : Model).id := by
    intro d hd
    rw [Bool.and_eq_true] at hd
    simpa using hd.1
  have hfind : ((Create st newId now false).1).coll.find?
      (fun d => d.id == ((Create st newId now false).1).model.id
        && !d.isRemoved)
      = some { st.model with
          id := newId, createdAt := now, createdBy := st.operator } :=
    upsert_find st.coll
      { st.model with id := newId, createdAt := now, createdBy := st.operator }
      _ hqdoc hq
  have hGet := getOp_found ((Create st newId now false).1) _ hfind
  rw [hGet]
  refine ⟨rfl, rfl, rfl, rfl,
    findId_upsert st.coll
      { st.model with
          id := newId, createdAt := now, createdBy := st.operator },
    rfl, rfl, ?_, rfl⟩
  show now ≠ 0
  omega

/-- Witness for C7 at a concrete state. -/
theorem C7_witness :
    (Create stEmpty 7 5 false).2 = none ∧
    (Create stEmpty 7 5 false).1.model.id = 7 ∧
    (Create stEmpty 7 5 false).1.model.createdAt = 5 ∧
    (Create stEmpty 7 5 false).1.model.createdBy = "bob" ∧
    findId (Create stEmpty 7 5 false).1.coll 7 =
      some { m0 with id := 7, createdAt := 5, createdBy := "bob" } ∧
    (GetOp (Create stEmpty 7 5 false).1 false).2 = none ∧
    (GetOp (Create stEmpty 7 5 false).1 false).1.model.id = 7 ∧
    (GetOp (Create stEmpty 7 5 false).1 false).1.model.createdAt ≠ 0 ∧
    (GetOp (Create stEmpty 7 5 false).1 false).1.model.createdBy = "bob" :=
  C7_create_then_get stEmpty 7 5 (by decide) (by decide)

/-! ## Helper lemmas: reflective field access -/

/-- A reflective `Set` succeeds exactly when the type declares the field
with a compatible type. -/
theorem setFieldR_isSome (r : RRecord) (f : String) (v : FVal) :
    (setFieldR r f v).isSome = canSet r f v := by
  induction r with
  | nil => rfl
  | cons p rest ih =>
    obtain ⟨g, old⟩ := p
    cases hg : g == f with
    | true =>
      cases hsk : sameKind old v <;>
        simp [setFieldR, canSet, getFieldR, hg, hsk]
    | false =>
      have hstep : canSet ((g, old) :: rest) f v = canSet rest f v := by
        simp [canSet, getFieldR, hg]
      have hun : setFieldR ((g, old) :: rest) f v
          = match setFieldR rest f v with
            | none => none
            | some rest1 => some ((g, old) :: rest1) := by
        simp [setFieldR, hg]
      rw [hun, hstep, ← ih]
      cases hs : setFieldR rest f v <;> simp [hs]

/-- A reflective `Set` of one field leaves every other field unchanged. -/
theorem getFieldR_set_ne (r : RRecord) (f g : String) (v : FVal)
    (hg : (f == g) = false) :
    ∀ r1, setFieldR r f v = some r1 → getFieldR r1 g = getFieldR r g := by
  induction r with
  | nil => intro r1 hset; cases hset
  | cons p rest ih =>
    obtain ⟨b, old⟩ := p
    intro r1 hset
    cases hb : b == f with
    | true =>
      simp only [setFieldR, hb, if_true] at hset
      cases hsk : sameKind old v with
      | false => rw [hsk] at hset; simp at hset
      | true =>
        rw [hsk] at hset
        simp only [if_true] at hset
        injection hset with h
        subst h
        have hbg : (b == g) = false := by
          cases hbg2 : b == g with
          | false => rfl
          | true =>
            have hbf : b = f := eq_of_beq hb
            have hbg3 : b = g := eq_of_beq hbg2
            rw [← hbf, hbg3] at hg
            simp at hg
        simp [getFieldR, hbg]
    | false =>
      simp only [setFieldR, hb, Bool.false_eq_true, if_false] at hset
      cases hs : setFieldR rest f v with
      | none => rw [hs] at hset; cases hset
      | some rest1 =>
        rw [hs] at hset
        injection hset with h
        subst h
        cases hbg : b == g with
        | true => simp [getFieldR, hbg]
        | false => simp [getFieldR, hbg, ih rest1 hs]

/-- Setting one field leaves `canSet` on every other field unchanged. -/
theorem canSet_set_ne (r : RRecord) (f g : String) (v w : FVal)
    (hg : (f == g) = false) (r1 : RRecord)
    (hset : setFieldR r f v = some r1) :
    canSet r1 g w = canSet r g w := by
  unfold canSet
  rw [getFieldR_set_ne r f g v hg r1 hset]

/-! ## Claim C9 -/

/-- A record type declaring every well-known field except `IsRemoved`. -/
def rNoIsRemoved : RRecord :=
  [("Id", .oid 1), ("CreatedAt", .time 0), ("CreatedBy", .str ""),
   ("UpdatedAt", .time 0), ("UpdatedBy", .str ""),
   ("RemovedAt", .time 0), ("RemovedBy", .str "")]

/-- Claim **C9 counterexample**: a record type lacking the required field
`IsRemoved`.  The claim says all of Create/Save/Delete/Erase fail with a
`SchemaViolation`-class failure, but `Create`, `Save` and `Erase` succeed
(they never touch `IsRemoved`); only `Delete` panics. -/
theorem C9_counterexample :
    getFieldR rNoIsRemoved "IsRemoved" = none ∧
    CreateR rNoIsRemoved "alice" 2 3 ≠ ROutcome.panicked ∧
    SaveR rNoIsRemoved "alice" 3 ≠ ROutcome.panicked ∧
    EraseR rNoIsRemoved ≠ ROutcome.panicked ∧
    DeleteR rNoIsRemoved "alice" 3 = ROutcome.panicked := by
  refine ⟨rfl, by decide, by decide, by decide, rfl⟩

/-- Claim **C9 amended** (corrected): each mutating operation panics with a
`SchemaViolation`-class failure (a Go `reflect` panic, not a returned
error value) exactly when the record's type lacks — or, for a field the
operation writes, declares with an incompatible type — one of the fields
*that operation accesses*: `Create` writes `Id`/`CreatedAt`/`CreatedBy`;
`Save` writes `UpdatedAt`/`UpdatedBy` and reads `Id`; `Delete` writes
`RemovedAt`/`RemovedBy`/`IsRemoved` and reads `Id`; `Erase` reads `Id`.
Fields an operation does not access are not checked. -/
theorem C9_schema_panic_iff (r : RRecord) (op2 : String) (newId now : Nat) :
    (CreateR r op2 newId now = ROutcome.panicked ↔
      ¬(canSet r "Id" (FVal.oid newId) = true ∧
        canSet r "CreatedAt" (FVal.time now) = true ∧
        canSet r "CreatedBy" (FVal.str op2) = true)) ∧
    (SaveR r op2 now = ROutcome.panicked ↔
      ¬(canSet r "UpdatedAt" (FVal.time now) = true ∧
        canSet r "UpdatedBy" (FVal.str op2) = true ∧
        (getFieldR r "Id").isSome = true)) ∧
    (DeleteR r op2 now = ROutcome.panicked ↔
      ¬(canSet r "RemovedAt" (FVal.time now) = true ∧
        canSet r "RemovedBy" (FVal.str op2) = true ∧
        canSet r "IsRemoved" (FVal.bool true) = true ∧
        (getFieldR r "Id").isSome = true)) ∧
    (EraseR r = ROutcome.panicked ↔ getFieldR r "Id" = none) := by
  have hnone : ∀ (r2 : RRecord) (f : String) (v : FVal),
      setFieldR r2 f v = none → canSet r2 f v = false := by
    intro r2 f v h
    rw [← setFieldR_isSome, h]
    rfl
  have hsome : ∀ (r2 : RRecord) (f : String) (v : FVal) (r3 : RRecord),
      setFieldR r2 f v = some r3 → canSet r2 f v = true := by
    intro r2 f v r3 h
    rw [← setFieldR_isSome, h]
    rfl
  refine ⟨?_, ?_, ?_, ?_⟩
  · unfold CreateR
    cases h1 : setFieldR r "Id" (FVal.oid newId) with
    | none => simp [hnone _ _ _ h1]
    | some r1 =>
      have hc1 := hsome _ _ _ _ h1
      cases h2 : setFieldR r1 "CreatedAt" (FVal.time now) with
      | none =>
        have hc2 : canSet r "CreatedAt" (FVal.time now) = false := by
          rw [← canSet_set_ne r "Id" "CreatedAt" (FVal.oid newId) _
              (by decide) r1 h1]
          exact hnone _ _ _ h2
        simp [h2, hc1, hc2]
      | some r2 =>
        have hc2 : canSet r "CreatedAt" (FVal.time now) = true := by
          rw [← canSet_set_ne r "Id" "CreatedAt" (FVal.oid newId) _
              (by decide) r1 h1]
          exact hsome _ _ _ _ h2
        cases h3 : setFieldR r2 "CreatedBy" (FVal.str op2) with
        | none =>
          have hc3 : canSet r "CreatedBy" (FVal.str op2) = false := by
            rw [← canSet_set_ne r "Id" "CreatedBy" (FVal.oid newId) _
                  (by decide) r1 h1,
                ← canSet_set_ne r1 "CreatedAt" "CreatedBy" (FVal.time now) _
                  (by decide) r2 h2]
            exact hnone _ _ _ h3
          simp [h2, h3, hc1, hc2, hc3]
        | some r3 =>
          have hc3 : canSet r "CreatedBy" (FVal.str op2) = true := by
            rw [← canSet_set_ne r "Id" "CreatedBy" (FVal.oid newId) _
                  (by decide) r1 h1,
                ← canSet_set_ne r1 "CreatedAt" "CreatedBy" (FVal.time now) _
                  (by decide) r2 h2]
            exact hsome _ _ _ _ h3
          simp [h2, h3, hc1, hc2, hc3]
  · unfold SaveR
    cases h1 : setFieldR r "UpdatedAt" (FVal.time now) with
    | none => simp [hnone _ _ _ h1]
    | some r1 =>
      have hc1 := hsome _ _ _ _ h1
      cases h2 : setFieldR r1 "UpdatedBy" (FVal.str op2) with
      | none =>
        have hc2 : canSet r "UpdatedBy" (FVal.str op2) = false := by
          rw [← canSet_set_ne r "UpdatedAt" "UpdatedBy" (FVal.time now) _
              (by decide) r1 h1]
          exact hnone _ _ _ h2
        simp [h2, hc1, hc2]
      | some r2 =>
        have hc2 : canSet r "UpdatedBy" (FVal.str op2) = true := by
          rw [← canSet_set_ne r "UpdatedAt" "UpdatedBy" (FVal.time now) _
              (by decide) r1 h1]
          exact hsome _ _ _ _ h2
        have hid : getFieldR r2 "Id" = getFieldR r "Id" := by
          rw [getFieldR_set_ne r1 "UpdatedBy" "Id" (FVal.str op2)
                (by decide) r2 h2,
              getFieldR_set_ne r "UpdatedAt" "Id" (FVal.time now)
                (by decide) r1 h1]
        cases hgid : (getFieldR r "Id").isSome with
        | true => simp [h2, hc1, hc2, hid, hgid]
        | false => simp [h2, hc1, hc2, hid, hgid]
  · unfold DeleteR
    cases h1 : setFieldR r "RemovedAt" (FVal.time now) with
    | none => simp [hnone _ _ _ h1]
    | some r1 =>
      have hc1 := hsome _ _ _ _ h1
      cases h2 : setFieldR r1 "RemovedBy" (FVal.str op2) with
      | none =>
        have hc2 : canSet r "RemovedBy" (FVal.str op2) = false := by
          rw [← canSet_set_ne r "RemovedAt" "RemovedBy" (FVal.time now) _
              (by decide) r1 h1]
          exact hnone _ _ _ h2
        simp [h2, hc1, hc2]
      | some r2 =>
        have hc2 : canSet r "RemovedBy" (FVal.str op2) = true := by
          rw [← canSet_set_ne r "RemovedAt" "RemovedBy" (FVal.time now) _
              (by decide) r1 h1]
          exact hsome _ _ _ _ h2
        cases h3 : setFieldR r2 "IsRemoved" (FVal.bool true) with
        | none =>
          have hc3 : canSet r "IsRemoved" (FVal.bool true) = false := by
            rw [← canSet_set_ne r "RemovedAt" "IsRemoved" (FVal.time now) _
                  (by decide) r1 h1,
                ← canSet_set_ne r1 "RemovedBy" "IsRemoved" (FVal.str op2) _
                  (by decide) r2 h2]
            exact hnone _ _ _ h3
          simp [h2, h3, hc1, hc2, hc3]
        | some r3 =>
          have hc3 : canSet r "IsRemoved" (FVal.bool true) = true := by
            rw [← canSet_set_ne r "RemovedAt" "IsRemoved" (FVal.time now) _
                  (by decide) r1 h1,
                ← canSet_set_ne r1 "RemovedBy" "IsRemoved" (FVal.str op2) _
                  (by decide) r2 h2]
            exact hsome _ _ _ _ h3
          have hid : getFieldR r3 "Id" = getFieldR r "Id" := by
            rw [getFieldR_set_ne r2 "IsRemoved" "Id" (FVal.bool true)
                  (by decide) r3 h3,
                getFieldR_set_ne r1 "RemovedBy" "Id" (FVal.str op2)
                  (by decide) r2 h2,
                getFieldR_set_ne r "RemovedAt" "Id" (FVal.time now)
                  (by decide) r1 h1]
          cases hgid : (getFieldR r "Id").isSome with
          | true => simp [h2, h3, hc1, hc2, hc3, hid, hgid]
          | false => simp [h2, h3, hc1, hc2, hc3, hid, hgid]
  · unfold EraseR
    cases hgid : getFieldR r "Id" with
    | none => simp [hgid]
    | some v0 => simp [hgid]
